import Mathlib

/-
Verification of the core behaviors of `main.py` from the
`find_suspended_friends` repository: the file-cache decorator `stored`,
the relation reconciler `my_suspended_acquaintances`, and the table
renderer `accounts_table`.

The embedding is shallow:
- Python/JSON values are modeled by the inductive type `PyVal`.
- Account dictionaries are modeled by the structure `Account`: the fields
  the code reads or writes (`acct`, `suspended`, `follower`, `following`)
  are lifted out, every other key is carried opaquely in `extra`.
- Python object identity and in-place mutation are modeled with a heap:
  a store `List Account` addressed by natural-number references, so that
  `related_accounts[handle]["follower"] = True` is an update of the store
  slot holding the original record object.
- The on-disk cache is modeled by an association list from file name to
  (parsed content, mtime); `json.dumps(v, default=str)` followed by
  `json.loads` is modeled by the function `toJsonVal`, which applies the
  `default=str` textual fallback to non-JSON-serializable components and
  is the identity elsewhere. Time is modeled in seconds as `Int`.
-/

/-- A Python value as handled by this program: JSON scalars, lists and
string-keyed dicts, plus `nonjson s`, a non-JSON-serializable object
(such as a `datetime`) whose `str()` form is `s`. -/
inductive PyVal where
  | null : PyVal
  | bool (b : Bool) : PyVal
  | int (n : Int) : PyVal
  | str (s : String) : PyVal
  | list (xs : List PyVal) : PyVal
  | dict (kvs : List (String × PyVal)) : PyVal
  | nonjson (s : String) : PyVal

mutual

/-- Decidable equality for `PyVal` (the derive handler does not support this
nested inductive, so it is spelled out). -/
def decEqPyVal : (a b : PyVal) → Decidable (a = b)
  | .null, .null => isTrue rfl
  | .bool a, .bool b =>
      if h : a = b then isTrue (by rw [h]) else isFalse fun e => h (PyVal.bool.inj e)
  | .int a, .int b =>
      if h : a = b then isTrue (by rw [h]) else isFalse fun e => h (PyVal.int.inj e)
  | .str a, .str b =>
      if h : a = b then isTrue (by rw [h]) else isFalse fun e => h (PyVal.str.inj e)
  | .nonjson a, .nonjson b =>
      if h : a = b then isTrue (by rw [h]) else isFalse fun e => h (PyVal.nonjson.inj e)
  | .list xs, .list ys =>
      match decEqPyValList xs ys with
      | isTrue h => isTrue (by rw [h])
      | isFalse h => isFalse fun e => h (PyVal.list.inj e)
  | .dict xs, .dict ys =>
      match decEqPyValKVs xs ys with
      | isTrue h => isTrue (by rw [h])
      | isFalse h => isFalse fun e => h (PyVal.dict.inj e)
  | .null, .bool _ => isFalse fun e => PyVal.noConfusion e
  | .null, .int _ => isFalse fun e => PyVal.noConfusion e
  | .null, .str _ => isFalse fun e => PyVal.noConfusion e
  | .null, .list _ => isFalse fun e => PyVal.noConfusion e
  | .null, .dict _ => isFalse fun e => PyVal.noConfusion e
  | .null, .nonjson _ => isFalse fun e => PyVal.noConfusion e
  | .bool _, .null => isFalse fun e => PyVal.noConfusion e
  | .bool _, .int _ => isFalse fun e => PyVal.noConfusion e
  | .bool _, .str _ => isFalse fun e => PyVal.noConfusion e
  | .bool _, .list _ => isFalse fun e => PyVal.noConfusion e
  | .bool _, .dict _ => isFalse fun e => PyVal.noConfusion e
  | .bool _, .nonjson _ => isFalse fun e => PyVal.noConfusion e
  | .int _, .null => isFalse fun e => PyVal.noConfusion e
  | .int _, .bool _ => isFalse fun e => PyVal.noConfusion e
  | .int _, .str _ => isFalse fun e => PyVal.noConfusion e
  | .int _, .list _ => isFalse fun e => PyVal.noConfusion e
  | .int _, .dict _ => isFalse fun e => PyVal.noConfusion e
  | .int _, .nonjson _ => isFalse fun e => PyVal.noConfusion e
  | .str _, .null => isFalse fun e => PyVal.noConfusion e
  | .str _, .bool _ => isFalse fun e => PyVal.noConfusion e
  | .str _, .int _ => isFalse fun e => PyVal.noConfusion e
  | .str _, .list _ => isFalse fun e => PyVal.noConfusion e
  | .str _, .dict _ => isFalse fun e => PyVal.noConfusion e
  | .str _, .nonjson _ => isFalse fun e => PyVal.noConfusion e
  | .list _, .null => isFalse fun e => PyVal.noConfusion e
  | .list _, .bool _ => isFalse fun e => PyVal.noConfusion e
  | .list _, .int _ => isFalse fun e => PyVal.noConfusion e
  | .list _, .str _ => isFalse fun e => PyVal.noConfusion e
  | .list _, .dict _ => isFalse fun e => PyVal.noConfusion e
  | .list _, .nonjson _ => isFalse fun e => PyVal.noConfusion e
  | .dict _, .null => isFalse fun e => PyVal.noConfusion e
  | .dict _, .bool _ => isFalse fun e => PyVal.noConfusion e
  | .dict _, .int _ => isFalse fun e => PyVal.noConfusion e
  | .dict _, .str _ => isFalse fun e => PyVal.noConfusion e
  | .dict _, .list _ => isFalse fun e => PyVal.noConfusion e
  | .dict _, .nonjson _ => isFalse fun e => PyVal.noConfusion e
  | .nonjson _, .null => isFalse fun e => PyVal.noConfusion e
  | .nonjson _, .bool _ => isFalse fun e => PyVal.noConfusion e
  | .nonjson _, .int _ => isFalse fun e => PyVal.noConfusion e
  | .nonjson _, .str _ => isFalse fun e => PyVal.noConfusion e
  | .nonjson _, .list _ => isFalse fun e => PyVal.noConfusion e
  | .nonjson _, .dict _ => isFalse fun e => PyVal.noConfusion e

/-- Decidable equality for lists of `PyVal`. -/
def decEqPyValList : (xs ys : List PyVal) → Decidable (xs = ys)
  | [], [] => isTrue rfl
  | [], _ :: _ => isFalse fun e => List.noConfusion e
  | _ :: _, [] => isFalse fun e => List.noConfusion e
  | x :: xs, y :: ys =>
      match decEqPyVal x y, decEqPyValList xs ys with
      | isTrue h1, isTrue h2 => isTrue (by rw [h1, h2])
      | isFalse h1, _ => isFalse fun e => h1 (List.cons.inj e).1
      | _, isFalse h2 => isFalse fun e => h2 (List.cons.inj e).2

/-- Decidable equality for string-keyed association lists of `PyVal`. -/
def decEqPyValKVs : (xs ys : List (String × PyVal)) → Decidable (xs = ys)
  | [], [] => isTrue rfl
  | [], _ :: _ => isFalse fun e => List.noConfusion e
  | _ :: _, [] => isFalse fun e => List.noConfusion e
  | (k, v) :: xs, (k', v') :: ys =>
      if hk : k = k' then
        match decEqPyVal v v', decEqPyValKVs xs ys with
        | isTrue h1, isTrue h2 => isTrue (by rw [hk, h1, h2])
        | isFalse h1, _ =>
            isFalse fun e => h1 (congrArg Prod.snd (List.cons.inj e).1)
        | _, isFalse h2 => isFalse fun e => h2 (List.cons.inj e).2
      else
        isFalse fun e => hk (congrArg Prod.fst (List.cons.inj e).1)

end

instance : DecidableEq PyVal := decEqPyVal

/-- Python truthiness of a value (`if account.get("suspended"):` etc.).
Empty containers, empty strings, zero, `False` and `None` are falsy;
generic objects such as datetimes are truthy. -/
def truthy : PyVal → Bool
  | .null => false
  | .bool b => b
  | .int n => decide (n ≠ 0)
  | .str s => decide (s ≠ "")
  | .list [] => false
  | .list (_ :: _) => true
  | .dict [] => false
  | .dict (_ :: _) => true
  | .nonjson _ => true

mutual

/-- Models `json.loads(json.dumps(v, indent=4, default=str))`: the value the
program reads back from a cache file that was written from `v`. JSON
scalars, lists and dicts survive the text round-trip unchanged; a
non-serializable component is replaced by its `str()` form (the
`default=str` fallback in `main.py` line 58). -/
def toJsonVal : PyVal → PyVal
  | .null => .null
  | .bool b => .bool b
  | .int n => .int n
  | .str s => .str s
  | .list xs => .list (toJsonValList xs)
  | .dict kvs => .dict (toJsonValKVs kvs)
  | .nonjson s => .str s

/-- `toJsonVal` mapped over list elements. -/
def toJsonValList : List PyVal → List PyVal
  | [] => []
  | x :: xs => toJsonVal x :: toJsonValList xs

/-- `toJsonVal` mapped over dict values. -/
def toJsonValKVs : List (String × PyVal) → List (String × PyVal)
  | [] => []
  | (k, v) :: kvs => (k, toJsonVal v) :: toJsonValKVs kvs

end

mutual

/-- A value is JSON-clean when no `nonjson` component occurs in it, i.e. the
`default=str` fallback never fires while serializing it. -/
def jsonClean : PyVal → Bool
  | .null => true
  | .bool _ => true
  | .int _ => true
  | .str _ => true
  | .list xs => jsonCleanList xs
  | .dict kvs => jsonCleanKVs kvs
  | .nonjson _ => false

/-- `jsonClean` over list elements. -/
def jsonCleanList : List PyVal → Bool
  | [] => true
  | x :: xs => jsonClean x && jsonCleanList xs

/-- `jsonClean` over dict values. -/
def jsonCleanKVs : List (String × PyVal) → Bool
  | [] => true
  | (_, v) :: kvs => jsonClean v && jsonCleanKVs kvs

end

mutual

/-- The textual round-trip is the identity on JSON-clean values. -/
theorem toJsonVal_of_clean : ∀ v : PyVal, jsonClean v = true → toJsonVal v = v
  | .null, _ => rfl
  | .bool _, _ => rfl
  | .int _, _ => rfl
  | .str _, _ => rfl
  | .list xs, h => by
      simp only [jsonClean] at h
      simp only [toJsonVal, toJsonValList_of_clean xs h]
  | .dict kvs, h => by
      simp only [jsonClean] at h
      simp only [toJsonVal, toJsonValKVs_of_clean kvs h]
  | .nonjson _, h => by simp [jsonClean] at h

/-- List version of `toJsonVal_of_clean`. -/
theorem toJsonValList_of_clean :
    ∀ xs : List PyVal, jsonCleanList xs = true → toJsonValList xs = xs
  | [], _ => rfl
  | x :: xs, h => by
      simp only [jsonCleanList, Bool.and_eq_true] at h
      simp only [toJsonValList, toJsonVal_of_clean x h.1, toJsonValList_of_clean xs h.2]

/-- Dict version of `toJsonVal_of_clean`. -/
theorem toJsonValKVs_of_clean :
    ∀ kvs : List (String × PyVal), jsonCleanKVs kvs = true → toJsonValKVs kvs = kvs
  | [], _ => rfl
  | (k, v) :: kvs, h => by
      simp only [jsonCleanKVs, Bool.and_eq_true] at h
      simp only [toJsonValKVs, toJsonVal_of_clean v h.1, toJsonValKVs_of_clean kvs h.2]

end

/-
Cache-through fetcher (`stored`, main.py lines 31-62).

The filesystem is an association list from file name to
(content, mtime); writing conses a new entry in front, which shadows any
older entry for the same name, modeling `write_text`'s overwrite.
File content is kept in parsed form: the entry for a write of `data`
holds `toJsonVal data`, the value `json.loads` returns for the text
`json.dumps(data, indent=4, default=str)`.
-/

/-- The filesystem state: file name, parsed content, mtime (seconds). -/
def Fs : Type := List (String × PyVal × Int)

/-- Look up a file; the most recent write (front of the list) wins. -/
def fsLookup : Fs → String → Option (PyVal × Int)
  | [], _ => none
  | (name, c, m) :: rest, q => if name = q then some (c, m) else fsLookup rest q

/-- Write (create or overwrite) a file with the given content and mtime. -/
def fsWrite (fs : Fs) (name : String) (c : PyVal) (m : Int) : Fs :=
  (name, c, m) :: fs

/-- `CACHE_LIFESPAN = timedelta(hours=1)` (main.py line 23), in seconds. -/
def CACHE_LIFESPAN : Int := 3600

/-- The decorated call `stored(func)(*args)` (main.py lines 39-60).
`now` is the module-level `NOW = datetime.now()` captured once at process
start (line 26); `writeTime` is the mtime the filesystem records if this
call writes its cache file. A fresh cache file (mtime within
`CACHE_LIFESPAN` of `NOW`, by the signed test `NOW - written < lifespan`
of line 49) is returned as parsed; otherwise the wrapped function runs,
its result is serialized to the cache file, and the in-memory result is
returned. -/
def storedCall (funcName : String) (func : List PyVal → PyVal)
    (now writeTime : Int) (fs : Fs) (args : List PyVal) : PyVal × Fs :=
  let cacheFile := funcName ++ ".json"
  match fsLookup fs cacheFile with
  | some (content, written) =>
      if now - written < CACHE_LIFESPAN then
        (content, fs)
      else
        let data := func args
        (data, fsWrite fs cacheFile (toJsonVal data) writeTime)
  | none =>
      let data := func args
      (data, fsWrite fs cacheFile (toJsonVal data) writeTime)

/-- Does a fresh cache entry for `file` exist (the condition under which
`stored` short-circuits)? -/
def cacheFresh (fs : Fs) (file : String) (now : Int) : Bool :=
  match fsLookup fs file with
  | some (_, written) => decide (now - written < CACHE_LIFESPAN)
  | none => false

/-
Relation reconciler (`my_suspended_acquaintances`, main.py lines 100-134).

Python account records are dicts, mutated in place; the merge dict
`related_accounts` stores references to the very objects found in the
input lists. To keep that observable, accounts live in a heap: a store
`List Account` addressed by `Nat` references, and the two input
collections are lists of references into the store.
-/

/-- An account record. The fields the program touches are explicit;
`suspended`, `follower` and `following` are `Option` because a record may
lack those keys (`account.get("suspended")` returns `None` then). All
remaining keys of the dict are carried opaquely in `extra`. -/
structure Account where
  acct : String
  suspended : Option PyVal
  follower : Option PyVal
  following : Option PyVal
  extra : List (String × PyVal)
deriving DecidableEq

/-- Placeholder record for out-of-range store reads; every theorem that
depends on record contents assumes references are in range. -/
def defaultAccount : Account := ⟨"", none, none, none, []⟩

/-- Read the record object behind reference `r`. -/
def storeGet (s : List Account) (r : Nat) : Account :=
  s.getD r defaultAccount

/-- Mutate the record object behind reference `r` in place. -/
def storeSet (s : List Account) (r : Nat) (f : Account → Account) : List Account :=
  s.set r (f (storeGet s r))

/-- `account["follower"] = b` on a record. -/
def putFollower (b : Bool) (a : Account) : Account :=
  { a with follower := some (PyVal.bool b) }

/-- `account["following"] = b` on a record. -/
def putFollowing (b : Bool) (a : Account) : Account :=
  { a with following := some (PyVal.bool b) }

/-- `related_accounts` is a Python dict from handle to account object;
modeled as an insertion-ordered association list from handle to store
reference. -/
def raLookup : List (String × Nat) → String → Option Nat
  | [], _ => none
  | (k, v) :: rest, h => if k = h then some v else raLookup rest h

/-- The state of the merge: the `related_accounts` dict and the heap of
account objects. -/
structure RState where
  dict : List (String × Nat)
  store : List Account
deriving DecidableEq

/-- One iteration of the first loop (main.py lines 109-116): read the
handle; if it is new, register this object and set its `following` key to
`False`; then set `follower = True` on the registered object. -/
def visitFollower (st : RState) (r : Nat) : RState :=
  let handle := (storeGet st.store r).acct
  let st1 :=
    match raLookup st.dict handle with
    | none =>
        { dict := st.dict ++ [(handle, r)],
          store := storeSet st.store r (putFollowing false) }
    | some _ => st
  match raLookup st1.dict handle with
  | some r0 => { st1 with store := storeSet st1.store r0 (putFollower true) }
  | none => st1

/-- One iteration of the second loop (main.py lines 118-125), symmetric:
new handles are registered with `follower = False`; then
`following = True` is set on the registered object. -/
def visitFollowing (st : RState) (r : Nat) : RState :=
  let handle := (storeGet st.store r).acct
  let st1 :=
    match raLookup st.dict handle with
    | none =>
        { dict := st.dict ++ [(handle, r)],
          store := storeSet st.store r (putFollower false) }
    | some _ => st
  match raLookup st1.dict handle with
  | some r0 => { st1 with store := storeSet st1.store r0 (putFollowing true) }
  | none => st1

/-- The two merge loops of `my_suspended_acquaintances`: process the
followers collection, then the following collection, starting from an
empty `related_accounts` dict. -/
def reconcileState (store : List Account) (followers following : List Nat) : RState :=
  following.foldl visitFollowing (followers.foldl visitFollower ⟨[], store⟩)

/-- Truthiness of `account.get("suspended")` (main.py line 130): an absent
key is `None`, hence falsy — absence means not suspended. -/
def suspTruthy (a : Account) : Bool :=
  match a.suspended with
  | some v => truthy v
  | none => false

/-- Lexicographic comparison of character lists by Unicode code point:
Python's `str` ordering, used by `sort(key=lambda account: ...)`. -/
def charsLe : List Char → List Char → Bool
  | [], _ => true
  | _ :: _, [] => false
  | a :: as, b :: bs =>
      if a.val < b.val then true
      else if b.val < a.val then false
      else charsLe as bs

/-- Python string comparison `a <= b` (code-point lexicographic). -/
def pyStrLe (a b : String) : Bool := charsLe a.data b.data

/-- Insert into a list sorted ascending by handle. -/
def insertByAcct (a : Account) : List Account → List Account
  | [] => [a]
  | b :: bs => if pyStrLe a.acct b.acct then a :: b :: bs else b :: insertByAcct a bs

/-- `suspended_accounts.sort(key=lambda account: account["acct"])`
(main.py line 132): stable ascending sort by handle; handles in the merge
dict are pairwise distinct, so any ascending-by-handle sort produces the
list Python produces. -/
def sortByAcct : List Account → List Account
  | [] => []
  | a :: rest => insertByAcct a (sortByAcct rest)

/-- The records held by the `related_accounts` dict, in insertion order
(`related_accounts.items()`, main.py line 129). -/
def relatedRecords (st : RState) : List Account :=
  st.dict.map fun e => storeGet st.store e.2

/-- `my_suspended_acquaintances(followers, following)` (main.py lines
100-134), returned value: merge the two collections per handle, keep the
records whose `suspended` field is truthy, sort ascending by handle. -/
def my_suspended_acquaintances (store : List Account) (followers following : List Nat) :
    List Account :=
  sortByAcct ((relatedRecords (reconcileState store followers following)).filter suspTruthy)

/-- The handles (`account["acct"]`) of the records referenced by `rs`. -/
def handlesOf (store : List Account) (rs : List Nat) : List String :=
  rs.map fun r => (storeGet store r).acct

/- Heap lemmas. -/

theorem storeSet_length (s : List Account) (r : Nat) (f : Account → Account) :
    (storeSet s r f).length = s.length := by
  simp [storeSet]

theorem storeGet_storeSet_self :
    ∀ (s : List Account) (r : Nat) (f : Account → Account), r < s.length →
      storeGet (storeSet s r f) r = f (storeGet s r)
  | [], r, f, h => absurd h (by simp)
  | a :: tl, 0, f, _ => rfl
  | a :: tl, r + 1, f, h =>
      storeGet_storeSet_self tl r f (Nat.lt_of_succ_lt_succ h)

theorem storeGet_storeSet_ne :
    ∀ (s : List Account) (r i : Nat) (f : Account → Account), r ≠ i →
      storeGet (storeSet s r f) i = storeGet s i
  | [], _, _, _, _ => rfl
  | a :: tl, 0, 0, f, hne => absurd rfl hne
  | a :: tl, 0, i + 1, f, _ => rfl
  | a :: tl, r + 1, 0, f, _ => rfl
  | a :: tl, r + 1, i + 1, f, hne =>
      storeGet_storeSet_ne tl r i f (fun e => hne (by rw [e]))

theorem putFollower_acct (b : Bool) (a : Account) : (putFollower b a).acct = a.acct := rfl

theorem putFollowing_acct (b : Bool) (a : Account) : (putFollowing b a).acct = a.acct := rfl

/- `related_accounts` lookup lemmas. -/

theorem raLookup_append_of_some {l1 : List (String × Nat)} {h : String} {r : Nat}
    (l2 : List (String × Nat)) (hl : raLookup l1 h = some r) :
    raLookup (l1 ++ l2) h = some r := by
  induction l1 with
  | nil => simp [raLookup] at hl
  | cons e tl ih =>
      obtain ⟨k, v⟩ := e
      by_cases hk : k = h
      · simpa [raLookup, hk] using by simpa [raLookup, hk] using hl
      · simp only [raLookup, if_neg hk] at hl
        simpa [raLookup, hk] using ih hl

theorem raLookup_append_of_none {l1 : List (String × Nat)} {h : String}
    (l2 : List (String × Nat)) (hl : raLookup l1 h = none) :
    raLookup (l1 ++ l2) h = raLookup l2 h := by
  induction l1 with
  | nil => rfl
  | cons e tl ih =>
      obtain ⟨k, v⟩ := e
      by_cases hk : k = h
      · simp [raLookup, hk] at hl
      · simp only [raLookup, if_neg hk] at hl
        simpa [raLookup, hk] using ih hl

theorem raLookup_eq_none_iff (l : List (String × Nat)) (h : String) :
    raLookup l h = none ↔ h ∉ l.map Prod.fst := by
  induction l with
  | nil => simp [raLookup]
  | cons e tl ih =>
      obtain ⟨k, v⟩ := e
      by_cases hk : k = h
      · simp [raLookup, hk]
      · simp [raLookup, hk, ih, Ne.symm hk]

theorem raLookup_mem {l : List (String × Nat)} {h : String} {r : Nat}
    (hl : raLookup l h = some r) : (h, r) ∈ l := by
  induction l with
  | nil => simp [raLookup] at hl
  | cons e tl ih =>
      obtain ⟨k, v⟩ := e
      by_cases hk : k = h
      · simp only [raLookup, if_pos hk] at hl
        subst hk
        obtain rfl : v = r := Option.some.inj hl
        exact List.mem_cons_self _ _
      · simp only [raLookup, if_neg hk] at hl
        exact List.mem_cons_of_mem _ (ih hl)

theorem raLookup_of_mem_of_nodup {l : List (String × Nat)} {h : String} {r : Nat}
    (hnd : (l.map Prod.fst).Nodup) (hm : (h, r) ∈ l) : raLookup l h = some r := by
  induction l with
  | nil => simp at hm
  | cons e tl ih =>
      obtain ⟨k, v⟩ := e
      simp only [List.map_cons, List.nodup_cons] at hnd
      rcases List.mem_cons.1 hm with he | htl
      · obtain ⟨rfl, rfl⟩ := Prod.mk.inj he.symm
        simp [raLookup]
      · have hk : k ≠ h := by
          intro e
          subst e
          exact hnd.1 (List.mem_map.2 ⟨(k, r), htl, rfl⟩)
        simpa [raLookup, hk] using ih hnd.2 htl

theorem raLookup_isSome_iff (l : List (String × Nat)) (h : String) :
    (raLookup l h).isSome = true ↔ h ∈ l.map Prod.fst := by
  rcases hl : raLookup l h with _ | r
  · simpa using (raLookup_eq_none_iff l h).1 hl
  · simp only [Option.isSome_some, true_iff]
    exact List.mem_map.2 ⟨(h, r), raLookup_mem hl, rfl⟩

/- Unfolding lemmas for the two loop bodies. -/

theorem visitFollower_existing (st : RState) (r r0 : Nat)
    (hlk : raLookup st.dict ((storeGet st.store r).acct) = some r0) :
    visitFollower st r = { st with store := storeSet st.store r0 (putFollower true) } := by
  simp [visitFollower, hlk]

theorem visitFollower_new (st : RState) (r : Nat)
    (hlk : raLookup st.dict ((storeGet st.store r).acct) = none) :
    visitFollower st r =
      { dict := st.dict ++ [((storeGet st.store r).acct, r)],
        store := storeSet (storeSet st.store r (putFollowing false)) r (putFollower true) } := by
  have h2 : raLookup (st.dict ++ [((storeGet st.store r).acct, r)])
      ((storeGet st.store r).acct) = some r := by
    rw [raLookup_append_of_none _ hlk]
    simp [raLookup]
  simp [visitFollower, hlk, h2]

theorem visitFollowing_existing (st : RState) (r r0 : Nat)
    (hlk : raLookup st.dict ((storeGet st.store r).acct) = some r0) :
    visitFollowing st r = { st with store := storeSet st.store r0 (putFollowing true) } := by
  simp [visitFollowing, hlk]

theorem visitFollowing_new (st : RState) (r : Nat)
    (hlk : raLookup st.dict ((storeGet st.store r).acct) = none) :
    visitFollowing st r =
      { dict := st.dict ++ [((storeGet st.store r).acct, r)],
        store := storeSet (storeSet st.store r (putFollower false)) r (putFollowing true) } := by
  have h2 : raLookup (st.dict ++ [((storeGet st.store r).acct, r)])
      ((storeGet st.store r).acct) = some r := by
    rw [raLookup_append_of_none _ hlk]
    simp [raLookup]
  simp [visitFollowing, hlk, h2]

/-- Invariant holding after the first loop has processed the records whose
handles are `pr` (in order), starting from an empty dict over `store`:
every processed handle is registered exactly once, the registered object
carries `follower = True, following = False` and is otherwise the
original record, and unregistered heap slots are untouched. -/
structure Inv1 (store : List Account) (pr : List String) (st : RState) : Prop where
  len : st.store.length = store.length
  keys : ∀ h, (raLookup st.dict h).isSome = true ↔ h ∈ pr
  entry : ∀ h r, raLookup st.dict h = some r →
    r < store.length ∧ (storeGet store r).acct = h ∧
      storeGet st.store r = putFollower true (putFollowing false (storeGet store r))
  frame : ∀ i, (∀ h, raLookup st.dict h ≠ some i) → storeGet st.store i = storeGet store i
  nodup : (st.dict.map Prod.fst).Nodup

theorem Inv1.base (store : List Account) : Inv1 store [] ⟨[], store⟩ where
  len := rfl
  keys := by simp [raLookup]
  entry := fun h r hr => by simp [raLookup] at hr
  frame := fun i _ => rfl
  nodup := by simp

theorem Inv1.acct_pres_first {store : List Account} {pr : List String} {st : RState}
    (inv : Inv1 store pr st) (i : Nat) :
    (storeGet st.store i).acct = (storeGet store i).acct := by
  by_cases hex : ∃ h, raLookup st.dict h = some i
  · obtain ⟨h, hh⟩ := hex
    rw [(inv.entry h i hh).2.2]
    rfl
  · push_neg at hex
    rw [inv.frame i hex]

theorem Inv1.step_follower {store : List Account} {pr : List String} {st : RState}
    (inv : Inv1 store pr st) (r : Nat) (hr : r < store.length) :
    Inv1 store (pr ++ [(storeGet store r).acct]) (visitFollower st r) := by
  have hacct := inv.acct_pres_first r
  rcases hlk : raLookup st.dict ((storeGet store r).acct) with _ | r0
  · -- the handle is new: the record object is registered and mutated
    have hvf := visitFollower_new st r (by rw [hacct]; exact hlk)
    rw [hacct] at hvf
    have hnotpr : (storeGet store r).acct ∉ pr := by
      intro hmem
      have := (inv.keys ((storeGet store r).acct)).2 hmem
      rw [hlk] at this
      simp at this
    have hnor : ∀ h, raLookup st.dict h ≠ some r := by
      intro h hh
      have he := (inv.entry h r hh).2.1
      rw [he] at hlk
      rw [hlk] at hh
      simp at hh
    have hsr : storeGet st.store r = storeGet store r := inv.frame r hnor
    have hrlen : r < st.store.length := by rw [inv.len]; exact hr
    have hrlen2 : r < (storeSet st.store r (putFollowing false)).length := by
      rw [storeSet_length]; exact hrlen
    have hnotkeys : (storeGet store r).acct ∉ st.dict.map Prod.fst :=
      (raLookup_eq_none_iff _ _).1 hlk
    rw [hvf]
    refine ⟨?_, ?_, ?_, ?_, ?_⟩
    · simp only [storeSet_length]
      exact inv.len
    · intro h
      rcases hlh : raLookup st.dict h with _ | x
      · rw [raLookup_append_of_none _ hlh]
        have hpr : h ∉ pr := by
          intro hm
          have := (inv.keys h).2 hm
          rw [hlh] at this
          simp at this
        by_cases hsh : (storeGet store r).acct = h
        · simp [raLookup, hsh]
        · simp [raLookup, hsh, hpr, Ne.symm hsh]
      · rw [raLookup_append_of_some _ hlh]
        have hpr : h ∈ pr := (inv.keys h).1 (by rw [hlh]; rfl)
        simp [hpr]
    · intro h r1 heq
      rcases hlh : raLookup st.dict h with _ | x
      · rw [raLookup_append_of_none _ hlh] at heq
        by_cases hsh : (storeGet store r).acct = h
        · simp only [raLookup, if_pos hsh] at heq
          obtain rfl : r = r1 := Option.some.inj heq
          refine ⟨hr, hsh, ?_⟩
          rw [storeGet_storeSet_self _ _ _ hrlen2,
            storeGet_storeSet_self _ _ _ hrlen, hsr]
        · simp [raLookup, hsh] at heq
      · rw [raLookup_append_of_some _ hlh] at heq
        rw [Option.some.inj heq] at hlh
        obtain ⟨hv1, ha1, hs1⟩ := inv.entry h r1 hlh
        have hner : r ≠ r1 := by
          intro e
          exact hnor h (by rw [e]; exact hlh)
        refine ⟨hv1, ha1, ?_⟩
        rw [storeGet_storeSet_ne _ _ _ _ hner, storeGet_storeSet_ne _ _ _ _ hner, hs1]
    · intro i hni
      have hnd_self : raLookup (st.dict ++ [((storeGet store r).acct, r)])
          ((storeGet store r).acct) = some r := by
        rw [raLookup_append_of_none _ hlk]
        simp [raLookup]
      have hir : r ≠ i := by
        intro e
        exact hni ((storeGet store r).acct) (by rw [← e]; exact hnd_self)
      have hni' : ∀ h, raLookup st.dict h ≠ some i := fun h hh =>
        hni h (raLookup_append_of_some _ hh)
      rw [storeGet_storeSet_ne _ _ _ _ hir, storeGet_storeSet_ne _ _ _ _ hir]
      exact inv.frame i hni'
    · simp only [List.map_append, List.map_cons, List.map_nil]
      rw [List.nodup_append]
      exact ⟨inv.nodup, List.nodup_singleton _, by
        intro a ha hb
        simp only [List.mem_singleton] at hb
        subst hb
        exact hnotkeys ha⟩
  · -- the handle is already registered at r0: only `follower` is re-set there
    have hvf := visitFollower_existing st r r0 (by rw [hacct]; exact hlk)
    obtain ⟨hr0, hacct0, hst0⟩ := inv.entry ((storeGet store r).acct) r0 hlk
    have hr0len : r0 < st.store.length := by rw [inv.len]; exact hr0
    have hmem : (storeGet store r).acct ∈ pr :=
      (inv.keys ((storeGet store r).acct)).1 (by rw [hlk]; rfl)
    rw [hvf]
    refine ⟨?_, ?_, ?_, ?_, inv.nodup⟩
    · simp only [storeSet_length]
      exact inv.len
    · intro h
      rw [inv.keys h]
      simp only [List.mem_append, List.mem_singleton]
      constructor
      · exact fun hp => Or.inl hp
      · rintro (hp | rfl)
        · exact hp
        · exact hmem
    · intro h r1 heq
      obtain ⟨hv1, ha1, hs1⟩ := inv.entry h r1 heq
      by_cases h10 : r0 = r1
      · subst h10
        refine ⟨hv1, ha1, ?_⟩
        rw [storeGet_storeSet_self _ _ _ hr0len, hst0]
        rfl
      · refine ⟨hv1, ha1, ?_⟩
        rw [storeGet_storeSet_ne _ _ _ _ h10, hs1]
    · intro i hni
      have hir : r0 ≠ i := by
        intro e
        exact hni ((storeGet store r).acct) (by rw [← e]; exact hlk)
      rw [storeGet_storeSet_ne _ _ _ _ hir]
      exact inv.frame i hni

theorem Inv1.fold_followers {store : List Account} :
    ∀ (fl : List Nat) (st : RState) (pr : List String), Inv1 store pr st →
      (∀ r ∈ fl, r < store.length) →
      Inv1 store (pr ++ handlesOf store fl) (fl.foldl visitFollower st)
  | [], st, pr, inv, _ => by simpa [handlesOf] using inv
  | r :: fl, st, pr, inv, hv => by
      have h1 := inv.step_follower r (hv r (List.mem_cons_self r fl))
      have h2 := Inv1.fold_followers fl (visitFollower st r) (pr ++ [(storeGet store r).acct]) h1
        (fun x hx => hv x (List.mem_cons_of_mem _ hx))
      simpa [handlesOf, List.append_assoc] using h2

/-- Invariant during the second loop: the first loop has processed all of
`fH` (the followers' handles) and the second has processed the records
whose handles are `pr`. Registered objects carry
`follower = (handle ∈ fH)` and `following = (handle ∈ pr)` and are
otherwise the original records; unregistered heap slots are untouched. -/
structure Inv2 (store : List Account) (fH pr : List String) (st : RState) : Prop where
  len : st.store.length = store.length
  keys : ∀ h, (raLookup st.dict h).isSome = true ↔ (h ∈ fH ∨ h ∈ pr)
  entry : ∀ h r, raLookup st.dict h = some r →
    r < store.length ∧ (storeGet store r).acct = h ∧
      storeGet st.store r =
        { storeGet store r with
            follower := some (PyVal.bool (decide (h ∈ fH))),
            following := some (PyVal.bool (decide (h ∈ pr))) }
  frame : ∀ i, (∀ h, raLookup st.dict h ≠ some i) → storeGet st.store i = storeGet store i
  nodup : (st.dict.map Prod.fst).Nodup

theorem Inv1.toInv2 {store : List Account} {fH : List String} {st : RState}
    (inv : Inv1 store fH st) : Inv2 store fH [] st where
  len := inv.len
  keys := fun h => by rw [inv.keys h]; simp
  entry := fun h r hr => by
    obtain ⟨hv, ha, hs⟩ := inv.entry h r hr
    have hmem : h ∈ fH := (inv.keys h).1 (by rw [hr]; rfl)
    have hd1 : decide (h ∈ fH) = true := by simp [hmem]
    have hd2 : decide (h ∈ ([] : List String)) = false := by simp
    refine ⟨hv, ha, ?_⟩
    rw [hs, hd1, hd2]
    rfl
  frame := inv.frame
  nodup := inv.nodup

theorem Inv2.acct_pres_second {store : List Account} {fH pr : List String} {st : RState}
    (inv : Inv2 store fH pr st) (i : Nat) :
    (storeGet st.store i).acct = (storeGet store i).acct := by
  by_cases hex : ∃ h, raLookup st.dict h = some i
  · obtain ⟨h, hh⟩ := hex
    rw [(inv.entry h i hh).2.2]
  · push_neg at hex
    rw [inv.frame i hex]

theorem Inv2.step_following {store : List Account} {fH pr : List String} {st : RState}
    (inv : Inv2 store fH pr st) (r : Nat) (hr : r < store.length) :
    Inv2 store fH (pr ++ [(storeGet store r).acct]) (visitFollowing st r) := by
  have hacct := inv.acct_pres_second r
  rcases hlk : raLookup st.dict ((storeGet store r).acct) with _ | r0
  · -- the handle is new: register this object with follower=False, following=True
    have hvf := visitFollowing_new st r (by rw [hacct]; exact hlk)
    rw [hacct] at hvf
    have hnot : (storeGet store r).acct ∉ fH ∧ (storeGet store r).acct ∉ pr := by
      have := (inv.keys ((storeGet store r).acct))
      rw [hlk] at this
      simpa [not_or] using fun hor => (this.2 hor)
    have hnor : ∀ h, raLookup st.dict h ≠ some r := by
      intro h hh
      have he := (inv.entry h r hh).2.1
      rw [he] at hlk
      rw [hlk] at hh
      simp at hh
    have hsr : storeGet st.store r = storeGet store r := inv.frame r hnor
    have hrlen : r < st.store.length := by rw [inv.len]; exact hr
    have hrlen2 : r < (storeSet st.store r (putFollower false)).length := by
      rw [storeSet_length]; exact hrlen
    have hnotkeys : (storeGet store r).acct ∉ st.dict.map Prod.fst :=
      (raLookup_eq_none_iff _ _).1 hlk
    rw [hvf]
    refine ⟨?_, ?_, ?_, ?_, ?_⟩
    · simp only [storeSet_length]
      exact inv.len
    · intro h
      rcases hlh : raLookup st.dict h with _ | x
      · rw [raLookup_append_of_none _ hlh]
        have hno : ¬(h ∈ fH ∨ h ∈ pr) := by
          intro hor
          have := (inv.keys h).2 hor
          rw [hlh] at this
          simp at this
        push_neg at hno
        by_cases hsh : (storeGet store r).acct = h
        · simp [raLookup, hsh]
        · simp [raLookup, hsh, hno.1, hno.2, Ne.symm hsh]
      · rw [raLookup_append_of_some _ hlh]
        have hor : h ∈ fH ∨ h ∈ pr := (inv.keys h).1 (by rw [hlh]; rfl)
        rcases hor with hm | hm <;> simp [hm]
    · intro h r1 heq
      rcases hlh : raLookup st.dict h with _ | x
      · rw [raLookup_append_of_none _ hlh] at heq
        by_cases hsh : (storeGet store r).acct = h
        · simp only [raLookup, if_pos hsh] at heq
          obtain rfl : r = r1 := Option.some.inj heq
          have hd1 : decide (h ∈ fH) = false := by
            rw [← hsh]
            simp [hnot.1]
          have hd2 : decide (h ∈ pr ++ [(storeGet store r).acct]) = true := by
            rw [← hsh]
            simp
          refine ⟨hr, hsh, ?_⟩
          rw [storeGet_storeSet_self _ _ _ hrlen2,
            storeGet_storeSet_self _ _ _ hrlen, hsr, hd1, hd2]
          rfl
        · simp [raLookup, hsh] at heq
      · rw [raLookup_append_of_some _ hlh] at heq
        rw [Option.some.inj heq] at hlh
        obtain ⟨hv1, ha1, hs1⟩ := inv.entry h r1 hlh
        have hner : r ≠ r1 := by
          intro e
          exact hnor h (by rw [e]; exact hlh)
        have hne : h ≠ (storeGet store r).acct := by
          intro e
          rw [e, hlk] at hlh
          simp at hlh
        have hd : decide (h ∈ pr ++ [(storeGet store r).acct]) = decide (h ∈ pr) :=
          decide_eq_decide.mpr (by simp [hne])
        refine ⟨hv1, ha1, ?_⟩
        rw [storeGet_storeSet_ne _ _ _ _ hner, storeGet_storeSet_ne _ _ _ _ hner, hs1, hd]
    · intro i hni
      have hnd_self : raLookup (st.dict ++ [((storeGet store r).acct, r)])
          ((storeGet store r).acct) = some r := by
        rw [raLookup_append_of_none _ hlk]
        simp [raLookup]
      have hir : r ≠ i := by
        intro e
        exact hni ((storeGet store r).acct) (by rw [← e]; exact hnd_self)
      have hni' : ∀ h, raLookup st.dict h ≠ some i := fun h hh =>
        hni h (raLookup_append_of_some _ hh)
      rw [storeGet_storeSet_ne _ _ _ _ hir, storeGet_storeSet_ne _ _ _ _ hir]
      exact inv.frame i hni'
    · simp only [List.map_append, List.map_cons, List.map_nil]
      rw [List.nodup_append]
      exact ⟨inv.nodup, List.nodup_singleton _, by
        intro a ha hb
        simp only [List.mem_singleton] at hb
        subst hb
        exact hnotkeys ha⟩
  · -- the handle is registered at r0: only `following` is re-set there
    have hvf := visitFollowing_existing st r r0 (by rw [hacct]; exact hlk)
    obtain ⟨hr0, hacct0, hst0⟩ := inv.entry ((storeGet store r).acct) r0 hlk
    have hr0len : r0 < st.store.length := by rw [inv.len]; exact hr0
    have hmem : (storeGet store r).acct ∈ fH ∨ (storeGet store r).acct ∈ pr :=
      (inv.keys ((storeGet store r).acct)).1 (by rw [hlk]; rfl)
    rw [hvf]
    refine ⟨?_, ?_, ?_, ?_, inv.nodup⟩
    · simp only [storeSet_length]
      exact inv.len
    · intro h
      rw [inv.keys h]
      simp only [List.mem_append, List.mem_singleton]
      constructor
      · rintro (hp | hp)
        · exact Or.inl hp
        · exact Or.inr (Or.inl hp)
      · rintro (hp | hp | rfl)
        · exact Or.inl hp
        · exact Or.inr hp
        · exact hmem
    · intro h r1 heq
      obtain ⟨hv1, ha1, hs1⟩ := inv.entry h r1 heq
      by_cases h10 : r0 = r1
      · subst h10
        have hsh : h = (storeGet store r).acct := by rw [← ha1, hacct0]
        have hd : decide (h ∈ pr ++ [(storeGet store r).acct]) = true := by
          rw [hsh]
          simp
        refine ⟨hv1, ha1, ?_⟩
        rw [storeGet_storeSet_self _ _ _ hr0len, hs1, hd]
        rfl
      · have hne : h ≠ (storeGet store r).acct := by
          intro e
          rw [e, hlk] at heq
          exact h10 (Option.some.inj heq)
        have hd : decide (h ∈ pr ++ [(storeGet store r).acct]) = decide (h ∈ pr) :=
          decide_eq_decide.mpr (by simp [hne])
        refine ⟨hv1, ha1, ?_⟩
        rw [storeGet_storeSet_ne _ _ _ _ h10, hs1, hd]
    · intro i hni
      have hir : r0 ≠ i := by
        intro e
        exact hni ((storeGet store r).acct) (by rw [← e]; exact hlk)
      rw [storeGet_storeSet_ne _ _ _ _ hir]
      exact inv.frame i hni

theorem Inv2.fold_following {store : List Account} {fH : List String} :
    ∀ (gl : List Nat) (st : RState) (pr : List String), Inv2 store fH pr st →
      (∀ r ∈ gl, r < store.length) →
      Inv2 store fH (pr ++ handlesOf store gl) (gl.foldl visitFollowing st)
  | [], st, pr, inv, _ => by simpa [handlesOf] using inv
  | r :: gl, st, pr, inv, hv => by
      have h1 := inv.step_following r (hv r (List.mem_cons_self r gl))
      have h2 := Inv2.fold_following gl (visitFollowing st r) (pr ++ [(storeGet store r).acct]) h1
        (fun x hx => hv x (List.mem_cons_of_mem _ hx))
      simpa [handlesOf, List.append_assoc] using h2

/-- The complete characterization of the merge: after both loops, the
`related_accounts` dict registers exactly the handles of the two inputs,
each bound to a record object whose `follower`/`following` flags encode
membership of its handle in the respective input, with all other fields
and all unregistered heap slots untouched. -/
theorem reconcile_inv (store : List Account) (f g : List Nat)
    (hf : ∀ r ∈ f, r < store.length) (hg : ∀ r ∈ g, r < store.length) :
    Inv2 store (handlesOf store f) (handlesOf store g) (reconcileState store f g) := by
  have h1 := Inv1.fold_followers f ⟨[], store⟩ [] (Inv1.base store) hf
  rw [List.nil_append] at h1
  have h3 := Inv2.fold_following g (f.foldl visitFollower ⟨[], store⟩) [] h1.toInv2 hg
  rw [List.nil_append] at h3
  exact h3

/- Output lemmas: the sort is a permutation, so output membership is
membership in the filtered record list. -/

theorem insertByAcct_perm (a : Account) :
    ∀ l : List Account, (insertByAcct a l).Perm (a :: l)
  | [] => List.Perm.refl _
  | b :: bs => by
      by_cases hle : pyStrLe a.acct b.acct = true
      · simp [insertByAcct, hle]
      · simp only [insertByAcct, if_neg hle]
        exact ((insertByAcct_perm a bs).cons b).trans (List.Perm.swap a b bs)

theorem sortByAcct_perm : ∀ l : List Account, (sortByAcct l).Perm l
  | [] => List.Perm.refl _
  | a :: l => (insertByAcct_perm a (sortByAcct l)).trans ((sortByAcct_perm l).cons a)

theorem mem_msa_iff (store : List Account) (f g : List Nat) (a : Account) :
    a ∈ my_suspended_acquaintances store f g ↔
      (a ∈ relatedRecords (reconcileState store f g) ∧ suspTruthy a = true) := by
  unfold my_suspended_acquaintances
  rw [(sortByAcct_perm _).mem_iff, List.mem_filter]

/-- C1: every record in the reconciler's output has `follower = True`
exactly when its handle occurs among the handles of the followers input,
and `following = True` exactly when its handle occurs among the handles
of the following input. Both flags are characterized by input membership
alone, so the final flag values do not depend on which collection is
processed first. -/
theorem msa_flags_iff (store : List Account) (followers following : List Nat)
    (hf : ∀ r ∈ followers, r < store.length) (hg : ∀ r ∈ following, r < store.length) :
    ∀ a ∈ my_suspended_acquaintances store followers following,
      (a.follower = some (PyVal.bool true) ↔ a.acct ∈ handlesOf store followers) ∧
      (a.following = some (PyVal.bool true) ↔ a.acct ∈ handlesOf store following) := by
  intro a ha
  have inv := reconcile_inv store followers following hf hg
  obtain ⟨hmem, hsusp⟩ := (mem_msa_iff store followers following a).1 ha
  obtain ⟨e, he, hae⟩ := List.mem_map.1 hmem
  obtain ⟨h, r⟩ := e
  have hlk := raLookup_of_mem_of_nodup inv.nodup he
  obtain ⟨hv, hacct, hrec⟩ := inv.entry h r hlk
  subst hae
  rw [hrec]
  simp [hacct]

/-- C2: the merge dict binds every handle occurring in either input
exactly once, and binds nothing else. -/
theorem msa_unique_handles (store : List Account) (followers following : List Nat)
    (hf : ∀ r ∈ followers, r < store.length) (hg : ∀ r ∈ following, r < store.length) :
    (∀ h, (h ∈ handlesOf store followers ∨ h ∈ handlesOf store following) →
      ((reconcileState store followers following).dict.map Prod.fst).count h = 1) ∧
    (∀ h, h ∉ handlesOf store followers → h ∉ handlesOf store following →
      ((reconcileState store followers following).dict.map Prod.fst).count h = 0) := by
  have inv := reconcile_inv store followers following hf hg
  constructor
  · intro h hor
    have hs : (raLookup (reconcileState store followers following).dict h).isSome = true :=
      (inv.keys h).2 hor
    have hm : h ∈ (reconcileState store followers following).dict.map Prod.fst :=
      (raLookup_isSome_iff _ _).1 hs
    exact List.count_eq_one_of_mem inv.nodup hm
  · intro h h1 h2
    rw [List.count_eq_zero]
    intro hm
    have hs := (raLookup_isSome_iff _ _).2 hm
    rcases (inv.keys h).1 hs with hx | hx
    · exact h1 hx
    · exact h2 hx

/-- C3: every output record has a truthy `suspended` field, and any record
with a falsy or absent `suspended` field is excluded from the output
(absence is handled by `account.get`, hence not an error). -/
theorem msa_suspended_only (store : List Account) (followers following : List Nat) :
    (∀ a ∈ my_suspended_acquaintances store followers following,
      ∃ v, a.suspended = some v ∧ truthy v = true) ∧
    (∀ a : Account, suspTruthy a = false →
      a ∉ my_suspended_acquaintances store followers following) := by
  constructor
  · intro a ha
    have hsusp := ((mem_msa_iff store followers following a).1 ha).2
    unfold suspTruthy at hsusp
    rcases hs : a.suspended with _ | v
    · rw [hs] at hsusp
      simp at hsusp
    · rw [hs] at hsusp
      exact ⟨v, rfl, hsusp⟩
  · intro a hfalse hmem
    have hsusp := ((mem_msa_iff store followers following a).1 hmem).2
    rw [hfalse] at hsusp
    simp at hsusp

/-- C8: with both input collections empty the reconciler returns the empty
list; it is a normal, non-error result. -/
theorem msa_empty (store : List Account) :
    my_suspended_acquaintances store [] [] = [] := rfl

/-- C10 (amended): the reconciler does mutate its inputs in place, but only
through the registered object of each handle: the first record object
encountered for a handle is registered and has both flags written onto it
(the original heap slot), encoding membership of the handle in each
input; a record whose handle was already registered by an earlier object
is never touched, and unregistered heap slots keep their original
contents. Every input record's handle ends up registered. -/
theorem msa_mutation (store : List Account) (followers following : List Nat)
    (hf : ∀ r ∈ followers, r < store.length) (hg : ∀ r ∈ following, r < store.length) :
    (reconcileState store followers following).store.length = store.length ∧
    (∀ r ∈ followers,
      (raLookup (reconcileState store followers following).dict
        ((storeGet store r).acct)).isSome = true) ∧
    (∀ r ∈ following,
      (raLookup (reconcileState store followers following).dict
        ((storeGet store r).acct)).isSome = true) ∧
    (∀ h r, raLookup (reconcileState store followers following).dict h = some r →
      storeGet (reconcileState store followers following).store r =
        { storeGet store r with
            follower := some (PyVal.bool (decide (h ∈ handlesOf store followers))),
            following := some (PyVal.bool (decide (h ∈ handlesOf store following))) }) ∧
    (∀ i, (∀ h, raLookup (reconcileState store followers following).dict h ≠ some i) →
      storeGet (reconcileState store followers following).store i = storeGet store i) := by
  have inv := reconcile_inv store followers following hf hg
  refine ⟨inv.len, ?_, ?_, ?_, inv.frame⟩
  · intro r hr
    exact (inv.keys _).2 (Or.inl (List.mem_map.2 ⟨r, hr, rfl⟩))
  · intro r hr
    exact (inv.keys _).2 (Or.inr (List.mem_map.2 ⟨r, hr, rfl⟩))
  · intro h r hlk
    exact (inv.entry h r hlk).2.2

/-- C10 is false as stated: with two distinct record objects sharing handle
`x`, one reachable from followers and one from following, the object in
the following input is left entirely untouched — its `following` key is
never created, because the handle was already registered by the followers
object (which is where `following = True` lands). -/
theorem msa_mutation_counterexample :
    ¬ (storeGet (reconcileState
        [⟨"x", none, none, none, []⟩, ⟨"x", none, none, none, []⟩]
        [0] [1]).store 1).following = some (PyVal.bool true) := by
  decide

/- Cache helper lemmas. -/

theorem fsLookup_fsWrite_self (fs : Fs) (name : String) (c : PyVal) (m : Int) :
    fsLookup (fsWrite fs name c m) name = some (c, m) := by
  simp [fsWrite, fsLookup]

theorem storedCall_hit (funcName : String) (func : List PyVal → PyVal)
    (now t : Int) (fs : Fs) (args : List PyVal) (c : PyVal) (m : Int)
    (hlk : fsLookup fs (funcName ++ ".json") = some (c, m))
    (hfresh : now - m < CACHE_LIFESPAN) :
    storedCall funcName func now t fs args = (c, fs) := by
  simp [storedCall, hlk, hfresh]

theorem storedCall_miss (funcName : String) (func : List PyVal → PyVal)
    (now t : Int) (fs : Fs) (args : List PyVal)
    (hmiss : cacheFresh fs (funcName ++ ".json") now = false) :
    storedCall funcName func now t fs args =
      (func args, fsWrite fs (funcName ++ ".json") (toJsonVal (func args)) t) := by
  unfold cacheFresh at hmiss
  rcases hlk : fsLookup fs (funcName ++ ".json") with _ | cm
  · simp [storedCall, hlk]
  · obtain ⟨c, m⟩ := cm
    rw [hlk] at hmiss
    simp only [decide_eq_false_iff_not] at hmiss
    simp [storedCall, hlk, hmiss]

theorem storedCall_miss_then_hit (funcName : String) (func : List PyVal → PyVal)
    (now t1 t2 : Int) (fs0 : Fs) (args1 args2 : List PyVal)
    (hmiss : cacheFresh fs0 (funcName ++ ".json") now = false)
    (hfresh : now - t1 < CACHE_LIFESPAN) :
    (storedCall funcName func now t1 fs0 args1).1 = func args1 ∧
    (storedCall funcName func now t2 (storedCall funcName func now t1 fs0 args1).2 args2).1 =
      toJsonVal (func args1) := by
  rw [storedCall_miss funcName func now t1 fs0 args1 hmiss]
  refine ⟨rfl, ?_⟩
  rw [storedCall_hit funcName func now t2 _ args2 (toJsonVal (func args1)) t1
    (fsLookup_fsWrite_self fs0 (funcName ++ ".json") (toJsonVal (func args1)) t1) hfresh]

/-- C5: the cache-through fetcher returns the stored entry exactly when an
entry for `funcName.json` exists whose mtime passes the freshness test
`NOW - written < CACHE_LIFESPAN` against the single process-start `now`
(leaving the filesystem unchanged); otherwise it calls the wrapped
operation, persists the serialized result under the operation's file, and
returns the operation's in-memory result — not the re-parsed copy it
wrote. -/
theorem stored_cache_policy (funcName : String) (func : List PyVal → PyVal)
    (now writeTime : Int) (fs : Fs) (args : List PyVal) :
    (∀ c m, fsLookup fs (funcName ++ ".json") = some (c, m) →
      now - m < CACHE_LIFESPAN →
      storedCall funcName func now writeTime fs args = (c, fs)) ∧
    (cacheFresh fs (funcName ++ ".json") now = false →
      storedCall funcName func now writeTime fs args =
        (func args, fsWrite fs (funcName ++ ".json") (toJsonVal (func args)) writeTime)) :=
  ⟨fun c m hlk hfresh => storedCall_hit funcName func now writeTime fs args c m hlk hfresh,
   fun hmiss => storedCall_miss funcName func now writeTime fs args hmiss⟩

/-- C6 is false as stated: a second call with different arguments within the
freshness window does not return the first call's result itself — it
returns the serialized-and-reparsed copy. Here the wrapped operation
yields a non-JSON-serializable value (a datetime-like object), the first
call returns it in memory, and the second call returns its `str()` form
read back from the cache file. -/
theorem stored_args_counterexample :
    (storedCall "fetch" (fun _ => PyVal.nonjson "2024-06-01 12:00:00") 0 6
        (storedCall "fetch" (fun _ => PyVal.nonjson "2024-06-01 12:00:00") 0 5 [] [PyVal.int 1]).2
        [PyVal.int 2]).1 ≠
      (storedCall "fetch" (fun _ => PyVal.nonjson "2024-06-01 12:00:00") 0 5 [] [PyVal.int 1]).1 := by
  decide

/-- C6 (amended): the cache key depends only on the operation's name, never
on its arguments: after a first call populates the cache, a second call
within the freshness window — with any argument list whatsoever — returns
the JSON round-trip of the first call's result (which coincides with the
first call's result exactly when that result is JSON-representable; see
the round-trip theorem). The wrapped operation is not invoked again: the
returned value is determined by `args1` alone. -/
theorem stored_keyed_by_name_only (funcName : String) (func : List PyVal → PyVal)
    (now t1 t2 : Int) (fs0 : Fs) (args1 args2 : List PyVal)
    (hnone : fsLookup fs0 (funcName ++ ".json") = none)
    (hfresh : now - t1 < CACHE_LIFESPAN) :
    (storedCall funcName func now t2 (storedCall funcName func now t1 fs0 args1).2 args2).1 =
      toJsonVal ((storedCall funcName func now t1 fs0 args1).1) := by
  have hmiss : cacheFresh fs0 (funcName ++ ".json") now = false := by
    unfold cacheFresh
    rw [hnone]
  obtain ⟨h1, h2⟩ :=
    storedCall_miss_then_hit funcName func now t1 t2 fs0 args1 args2 hmiss hfresh
  rw [h1, h2]

/-- C7: a value written on the cache-miss path and read back on the
cache-hit path equals the original value after applying the stable
textual fallback to its non-serializable components (`toJsonVal`); in
particular it is structurally identical to the original whenever the
original is JSON-representable. -/
theorem stored_roundtrip (funcName : String) (func : List PyVal → PyVal)
    (now t1 t2 : Int) (fs0 : Fs) (args : List PyVal)
    (hmiss : cacheFresh fs0 (funcName ++ ".json") now = false)
    (hfresh : now - t1 < CACHE_LIFESPAN) :
    (storedCall funcName func now t2 (storedCall funcName func now t1 fs0 args).2 args).1 =
      toJsonVal ((storedCall funcName func now t1 fs0 args).1) ∧
    (jsonClean ((storedCall funcName func now t1 fs0 args).1) = true →
      (storedCall funcName func now t2 (storedCall funcName func now t1 fs0 args).2 args).1 =
        (storedCall funcName func now t1 fs0 args).1) := by
  obtain ⟨h1, h2⟩ :=
    storedCall_miss_then_hit funcName func now t1 t2 fs0 args args hmiss hfresh
  constructor
  · rw [h1, h2]
  · intro hclean
    rw [h1] at hclean
    rw [h1, h2, toJsonVal_of_clean _ hclean]

/-
The reconciler as exposed to callers: `my_suspended_acquaintances` is
decorated with `@stored` (main.py line 100), so an invocation first
consults `my_suspended_acquaintances.json`.
-/

/-- An account record as the Python dict it models. The key order is a
fixed canonical one (handle, suspended flag, passthrough keys, relation
flags); no theorem below depends on it. -/
def accountToPy (a : Account) : PyVal :=
  .dict ([("acct", .str a.acct)] ++
    (match a.suspended with | some v => [("suspended", v)] | none => []) ++
    a.extra ++
    (match a.follower with | some v => [("follower", v)] | none => []) ++
    (match a.following with | some v => [("following", v)] | none => []))

/-- The list `my_suspended_acquaintances` returns, as a Python value. -/
def msaPy (store : List Account) (followers following : List Nat) : PyVal :=
  .list ((my_suspended_acquaintances store followers following).map accountToPy)

/-- One invocation of the decorated `my_suspended_acquaintances`. The
decorator keys the cache by the function name alone and ignores the call
arguments, so the wrapped operation closes over the two input collections
(which are this model's parameters). -/
def msaStored (store : List Account) (followers following : List Nat)
    (now writeTime : Int) (fs : Fs) : PyVal × Fs :=
  storedCall "my_suspended_acquaintances" (fun _ => msaPy store followers following)
    now writeTime fs []

/-- C4 is false as stated: invoking the decorated reconciler twice on the
same inputs does not yield identical output when a record carries a
non-JSON-serializable field. Here the single suspended account has a
datetime-valued `last_status_at`; the first call returns it in memory,
the second call is served from the cache file and returns its `str()`
form instead. -/
theorem msa_stored_twice_counterexample :
    (msaStored [⟨"a", some (PyVal.bool true), none, none,
        [("last_status_at", PyVal.nonjson "2023-05-01 10:00:00")]⟩] [0] [] 0 2
      (msaStored [⟨"a", some (PyVal.bool true), none, none,
        [("last_status_at", PyVal.nonjson "2023-05-01 10:00:00")]⟩] [0] [] 0 1 []).2).1 ≠
    (msaStored [⟨"a", some (PyVal.bool true), none, none,
        [("last_status_at", PyVal.nonjson "2023-05-01 10:00:00")]⟩] [0] [] 0 1 []).1 := by
  decide

/-- C4 (amended): invoking the decorated reconciler twice on the same two
input collections (first call a cache miss, second call within the
freshness window of the file the first call wrote) returns, the second
time, the JSON round-trip of the first output — identical to the first
output exactly when that output contains only JSON-representable values.
The underlying merge is deterministic, so any deviation between the two
results comes from the serialization fallback alone. -/
theorem msa_stored_twice (store : List Account) (followers following : List Nat)
    (now t1 t2 : Int) (fs0 : Fs)
    (hmiss : cacheFresh fs0 ("my_suspended_acquaintances" ++ ".json") now = false)
    (hfresh : now - t1 < CACHE_LIFESPAN) :
    (msaStored store followers following now t2
        (msaStored store followers following now t1 fs0).2).1 =
      toJsonVal ((msaStored store followers following now t1 fs0).1) ∧
    (jsonClean ((msaStored store followers following now t1 fs0).1) = true →
      (msaStored store followers following now t2
          (msaStored store followers following now t1 fs0).2).1 =
        (msaStored store followers following now t1 fs0).1) := by
  obtain ⟨h1, h2⟩ := storedCall_miss_then_hit "my_suspended_acquaintances"
    (fun _ => msaPy store followers following) now t1 t2 fs0 [] [] hmiss hfresh
  unfold msaStored
  constructor
  · rw [h1, h2]
  · intro hclean
    rw [h1] at hclean
    rw [h1, h2, toJsonVal_of_clean _ hclean]

/-
Table renderer (`accounts_table`, main.py lines 146-164) and its row
helper (`suspended_table_rows`, lines 137-143). The Rich `Table` object
is modeled by its contents: the list of rows, each a list of rendered
cell strings (row number first, then the five configured columns).
-/

/-- `SUSPENDED_TABLE_COLUMNS` (main.py lines 15-21): column key and style. -/
def SUSPENDED_TABLE_COLUMNS : List (String × String) :=
  [("url", "green"), ("acct", "white"), ("last_status_at", "white"),
   ("follower", "blue"), ("following", "blue")]

/-- Dict lookup on an account record (`row[column]` / `account.get(column)`
return `some`/`none` here; the caller decides whether `none` is a
`KeyError` or a `None` default). -/
def accountGet (a : Account) (k : String) : Option PyVal :=
  if k = "acct" then some (.str a.acct)
  else if k = "suspended" then a.suspended
  else if k = "follower" then a.follower
  else if k = "following" then a.following
  else List.lookup k a.extra

mutual

/-- Python `str()` of a value, as used for the table cells
(`str(account.get(column))`). For nested containers Python renders
elements with `repr`; this model reuses the `str` forms (string quoting
is the only difference, and the program only renders scalar cells). -/
def pyStr : PyVal → String
  | .null => "None"
  | .bool true => "True"
  | .bool false => "False"
  | .int n => toString n
  | .str s => s
  | .nonjson s => s
  | .list xs => "[" ++ pyStrList xs ++ "]"
  | .dict kvs => "\x7b" ++ pyStrKVs kvs ++ "\x7d"

/-- Comma-joined `pyStr` forms of list elements. -/
def pyStrList : List PyVal → String
  | [] => ""
  | x :: xs => pyStr x ++ (if xs.isEmpty then "" else ", ") ++ pyStrList xs

/-- Comma-joined `key: value` forms of dict entries. -/
def pyStrKVs : List (String × PyVal) → String
  | [] => ""
  | (k, v) :: kvs =>
      "\x27" ++ k ++ "\x27: " ++ pyStr v ++ (if kvs.isEmpty then "" else ", ") ++ pyStrKVs kvs

end

/-- Python list indexing: `xs[i]` raises `IndexError` out of range. -/
def pyIndex {α : Type} (xs : List α) (i : Nat) : Except String α :=
  match xs.get? i with
  | some x => .ok x
  | none => .error "IndexError"

/-- `suspended_table_rows(accounts)` (main.py lines 137-143), the wrapped
function's body: project every account onto the configured columns;
`row[column]` raises `KeyError` when a column key is missing. (In the
program this function is additionally wrapped by `@stored`; its caching
plays no role in the renderer claims.) -/
def suspended_table_rows (accounts : List Account) :
    Except String (List (List (String × PyVal))) :=
  accounts.mapM fun row =>
    SUSPENDED_TABLE_COLUMNS.mapM fun c =>
      match accountGet row c.1 with
      | some v => Except.ok (c.1, v)
      | none => Except.error "KeyError"

/-- `accounts_table(accounts)` (main.py lines 146-164). The first statement,
`logging.debug(accounts[0].keys())`, evaluates `accounts[0]` before the
logging call regardless of log level, so an empty input raises
`IndexError` there. Otherwise the table is built row by row from
`suspended_table_rows`, each row rendered as `str(account.get(column))`
with a 1-based row number in front. -/
def accounts_table (accounts : List Account) : Except String (List (List String)) := do
  let _ ← pyIndex accounts 0
  let rows ← suspended_table_rows accounts
  return ((List.range rows.length).zip rows).map fun p =>
    toString (p.1 + 1) ::
      SUSPENDED_TABLE_COLUMNS.map fun c =>
        pyStr (match List.lookup c.1 p.2 with | some v => v | none => .null)

/-- C9: on an empty account list the table renderer fails with an
`IndexError` from the unconditional `accounts[0]` evaluation instead of
producing an empty table, so a run that finds no suspended acquaintances
does not terminate successfully. -/
theorem accounts_table_empty_fails :
    accounts_table [] = Except.error "IndexError" := rfl

/- Concrete witnesses. -/

/-- Witness for the flag characterization: with follower record `b` (ref 0)
and following record `a` (ref 1), the output record for handle `b` has
`follower = True` iff `b` is a followers handle and `following = True`
iff `b` is a following handle. -/
theorem msa_flags_iff_witness :
    ((Account.mk "b" (some (PyVal.bool true)) (some (PyVal.bool true))
        (some (PyVal.bool false)) []).follower = some (PyVal.bool true) ↔
      (Account.mk "b" (some (PyVal.bool true)) (some (PyVal.bool true))
        (some (PyVal.bool false)) []).acct ∈
        handlesOf [⟨"b", some (PyVal.bool true), none, none, []⟩,
          ⟨"a", some (PyVal.bool true), none, none, []⟩] [0]) ∧
    ((Account.mk "b" (some (PyVal.bool true)) (some (PyVal.bool true))
        (some (PyVal.bool false)) []).following = some (PyVal.bool true) ↔
      (Account.mk "b" (some (PyVal.bool true)) (some (PyVal.bool true))
        (some (PyVal.bool false)) []).acct ∈
        handlesOf [⟨"b", some (PyVal.bool true), none, none, []⟩,
          ⟨"a", some (PyVal.bool true), none, none, []⟩] [1]) :=
  msa_flags_iff
    [⟨"b", some (PyVal.bool true), none, none, []⟩,
     ⟨"a", some (PyVal.bool true), none, none, []⟩] [0] [1]
    (by decide) (by decide)
    (Account.mk "b" (some (PyVal.bool true)) (some (PyVal.bool true))
      (some (PyVal.bool false)) [])
    (by decide)

/-- Witness for handle uniqueness: handle `b` occurs exactly once among the
merge dict keys, handle `zz` (in neither input) not at all. -/
theorem msa_unique_handles_witness :
    ((reconcileState [⟨"b", some (PyVal.bool true), none, none, []⟩,
        ⟨"a", some (PyVal.bool true), none, none, []⟩] [0] [1]).dict.map
      Prod.fst).count "b" = 1 ∧
    ((reconcileState [⟨"b", some (PyVal.bool true), none, none, []⟩,
        ⟨"a", some (PyVal.bool true), none, none, []⟩] [0] [1]).dict.map
      Prod.fst).count "zz" = 0 :=
  ⟨(msa_unique_handles
      [⟨"b", some (PyVal.bool true), none, none, []⟩,
       ⟨"a", some (PyVal.bool true), none, none, []⟩] [0] [1]
      (by decide) (by decide)).1 "b" (by decide),
   (msa_unique_handles
      [⟨"b", some (PyVal.bool true), none, none, []⟩,
       ⟨"a", some (PyVal.bool true), none, none, []⟩] [0] [1]
      (by decide) (by decide)).2 "zz" (by decide) (by decide)⟩

/-- Witness for the suspended filter: the output record for handle `a` has
a truthy suspended field, and the record whose suspended field is absent
is not in the output. -/
theorem msa_suspended_only_witness :
    (∃ v, (Account.mk "a" (some (PyVal.bool true)) (some (PyVal.bool false))
        (some (PyVal.bool true)) []).suspended = some v ∧ truthy v = true) ∧
    (Account.mk "c" none (some (PyVal.bool true)) (some (PyVal.bool false)) []) ∉
      my_suspended_acquaintances [⟨"c", none, none, none, []⟩] [0] [] :=
  ⟨(msa_suspended_only
      [⟨"b", some (PyVal.bool true), none, none, []⟩,
       ⟨"a", some (PyVal.bool true), none, none, []⟩] [0] [1]).1
      (Account.mk "a" (some (PyVal.bool true)) (some (PyVal.bool false))
        (some (PyVal.bool true)) []) (by decide),
   (msa_suspended_only [⟨"c", none, none, none, []⟩] [0] []).2
      (Account.mk "c" none (some (PyVal.bool true)) (some (PyVal.bool false)) [])
      (by decide)⟩

/-- Witness for the amended idempotence: when every field of the suspended
record is JSON-representable, the second (cache-served) invocation
returns exactly the first invocation's output. -/
theorem msa_stored_twice_witness :
    (msaStored [⟨"a", some (PyVal.bool true), none, none,
        [("url", PyVal.str "https://inst/a")]⟩] [0] [] 0 2
      (msaStored [⟨"a", some (PyVal.bool true), none, none,
        [("url", PyVal.str "https://inst/a")]⟩] [0] [] 0 1 []).2).1 =
    (msaStored [⟨"a", some (PyVal.bool true), none, none,
        [("url", PyVal.str "https://inst/a")]⟩] [0] [] 0 1 []).1 :=
  (msa_stored_twice [⟨"a", some (PyVal.bool true), none, none,
      [("url", PyVal.str "https://inst/a")]⟩] [0] [] 0 1 2 []
    (by decide) (by decide)).2 (by decide)

/-- Witness for the cache policy: a fresh entry is returned with the
filesystem untouched, and a missing entry triggers the wrapped call. -/
theorem stored_cache_policy_witness :
    (storedCall "f" (fun _ => PyVal.int 7) 0 5 [("f.json", PyVal.int 3, 0)] []).1 =
      PyVal.int 3 ∧
    (storedCall "g" (fun _ => PyVal.int 7) 0 5 [] []).1 = PyVal.int 7 :=
  ⟨congrArg Prod.fst
      ((stored_cache_policy "f" (fun _ => PyVal.int 7) 0 5 [("f.json", PyVal.int 3, 0)] []).1
        (PyVal.int 3) 0 (by decide) (by decide)),
   congrArg Prod.fst
      ((stored_cache_policy "g" (fun _ => PyVal.int 7) 0 5 [] []).2 (by decide))⟩

/-- Witness for argument-independent caching: a second call with different
arguments returns the round-trip of the first call's result. -/
theorem stored_keyed_by_name_only_witness :
    (storedCall "h" (fun _ => PyVal.int 1) 0 2
        (storedCall "h" (fun _ => PyVal.int 1) 0 1 [] [PyVal.int 5]).2 [PyVal.int 9]).1 =
      toJsonVal ((storedCall "h" (fun _ => PyVal.int 1) 0 1 [] [PyVal.int 5]).1) :=
  stored_keyed_by_name_only "h" (fun _ => PyVal.int 1) 0 1 2 [] [PyVal.int 5] [PyVal.int 9]
    (by decide) (by decide)

/-- Witness for the round-trip: a JSON-clean value read back from the cache
equals the value originally returned. -/
theorem stored_roundtrip_witness :
    (storedCall "k" (fun _ => PyVal.str "v") 0 2
        (storedCall "k" (fun _ => PyVal.str "v") 0 1 [] []).2 []).1 =
      (storedCall "k" (fun _ => PyVal.str "v") 0 1 [] []).1 :=
  (stored_roundtrip "k" (fun _ => PyVal.str "v") 0 1 2 [] []
    (by decide) (by decide)).2 (by decide)

/-- Witness for the mutation frame: the followers record object (ref 0,
handle `b`) is mutated in place into the original record with both
relation flags written. -/
theorem msa_mutation_witness :
    storeGet (reconcileState [⟨"b", some (PyVal.bool true), none, none, []⟩,
        ⟨"a", some (PyVal.bool true), none, none, []⟩] [0] [1]).store 0 =
      Account.mk "b" (some (PyVal.bool true)) (some (PyVal.bool true))
        (some (PyVal.bool false)) [] :=
  (msa_mutation [⟨"b", some (PyVal.bool true), none, none, []⟩,
      ⟨"a", some (PyVal.bool true), none, none, []⟩] [0] [1]
    (by decide) (by decide)).2.2.2.1 "b" 0 (by decide)
